import Mathlib

/-!
Verification of the 1Password duplicate-archiver script (`dupe_finder.py`).

The script shells out to the external `op` CLI to list accounts, vaults and
items, groups the items of one vault by title, and (after interactive
confirmation) archives every item of a duplicate group except the most
recently updated one.

This file gives a shallow embedding of the script:
* the `op` subprocess boundary is a function `run : List String → Except PyErr String`
  giving either the captured standard output or the raised exception
  (`subprocess.run` raises `FileNotFoundError` when the binary is missing);
* `json.loads` is modelled by the executable parser `jsonLoads`, which returns
  `none` where the Python function would raise `json.JSONDecodeError`;
* the pure core `find_duplicates` works on the decoded item records;
* the interactive `main` command is modelled by `mainRun`, which produces the
  trace of console prints and archive subprocess invocations; `some trace`
  models ordinary successful termination (the script defines no non-zero
  exit paths), `none` models being stuck forever in a selection prompt loop.
-/

/-- Exceptions of the Python code that are relevant here: `FileNotFoundError`
raised by `subprocess.run` when the external binary is missing, and
`json.JSONDecodeError` raised by `json.loads` on invalid input. -/
inductive PyErr where
  | fileNotFound
  | jsonDecode
deriving DecidableEq

/-- JSON values as produced by `json.loads`.  Numbers keep their source
lexeme (their numeric value is never inspected by the script). -/
inductive Json where
  | null
  | bool (b : Bool)
  | num (lexeme : String)
  | str (s : String)
  | arr (xs : List Json)
  | obj (kvs : List (String × Json))

/-- JSON whitespace characters. -/
def isJsonWs (c : Char) : Bool :=
  c == ' ' || c == '\t' || c == '\n' || c == '\r'

/-- Drop leading JSON whitespace. -/
def skipWs : List Char → List Char
  | [] => []
  | c :: cs => if isJsonWs c then skipWs cs else c :: cs

def isDigitChar (c : Char) : Bool := c.isDigit

/-- Split off the longest digit prefix. -/
def takeDigits (cs : List Char) : List Char × List Char := cs.span isDigitChar

/-- Integer part of a JSON number: `0`, or a nonzero digit followed by digits. -/
def parseIntPart : List Char → Option (List Char × List Char)
  | [] => none
  | c :: cs =>
    if c == '0' then some ([c], cs)
    else if isDigitChar c then
      let (d, r) := takeDigits cs
      some (c :: d, r)
    else none

/-- Optional fractional part `.digits` of a JSON number. -/
def parseFracPart : List Char → Option (List Char × List Char)
  | '.' :: cs =>
    match takeDigits cs with
    | ([], _) => none
    | (d, r) => some ('.' :: d, r)
  | cs => some ([], cs)

/-- Optional exponent part of a JSON number. -/
def parseExpPart : List Char → Option (List Char × List Char)
  | [] => some ([], [])
  | c :: cs =>
    if c == 'e' || c == 'E' then
      let (sgn, cs1) :=
        match cs with
        | s :: rest => if s == '+' || s == '-' then ([s], rest) else ([], cs)
        | [] => ([], ([] : List Char))
      match takeDigits cs1 with
      | ([], _) => none
      | (d, r) => some (c :: (sgn ++ d), r)
    else some ([], c :: cs)

/-- A JSON number starting at the given characters (sign already included). -/
def parseNumber (cs : List Char) : Option (Json × List Char) :=
  let (sgn, cs1) :=
    match cs with
    | '-' :: rest => (['-'], rest)
    | _ => (([] : List Char), cs)
  match parseIntPart cs1 with
  | none => none
  | some (ip, r1) =>
    match parseFracPart r1 with
    | none => none
    | some (fp, r2) =>
      match parseExpPart r2 with
      | none => none
      | some (ep, r3) => some (.num (String.mk (sgn ++ ip ++ fp ++ ep)), r3)

/-- Value of one hexadecimal digit, by code point. -/
def hexDigitVal (c : Char) : Option Nat :=
  let n := c.toNat
  if 48 ≤ n && n ≤ 57 then some (n - 48)
  else if 97 ≤ n && n ≤ 102 then some (n - 87)
  else if 65 ≤ n && n ≤ 70 then some (n - 55)
  else none

/-- Body of a JSON string after the opening quote: returns the decoded
characters and the input remaining after the closing quote. -/
def parseStringBody : List Char → Option (List Char × List Char)
  | [] => none
  | '"' :: cs => some ([], cs)
  | '\\' :: 'u' :: h1 :: h2 :: h3 :: h4 :: cs =>
    match hexDigitVal h1, hexDigitVal h2, hexDigitVal h3, hexDigitVal h4 with
    | some a, some b, some c, some d =>
      match parseStringBody cs with
      | some (s, r) => some (Char.ofNat (4096 * a + 256 * b + 16 * c + d) :: s, r)
      | none => none
    | _, _, _, _ => none
  | '\\' :: e :: cs =>
    let dec : Option Char :=
      if e == '"' then some '"'
      else if e == '\\' then some '\\'
      else if e == '/' then some '/'
      else if e == 'b' then some (Char.ofNat 8)
      else if e == 'f' then some (Char.ofNat 12)
      else if e == 'n' then some '\n'
      else if e == 'r' then some '\r'
      else if e == 't' then some '\t'
      else none
    match dec with
    | none => none
    | some d =>
      match parseStringBody cs with
      | some (s, r) => some (d :: s, r)
      | none => none
  | c :: cs =>
    if c.toNat < 32 then none
    else
      match parseStringBody cs with
      | some (s, r) => some (c :: s, r)
      | none => none

mutual

/-- Recursive-descent JSON value parser (fuel-indexed).  Mirrors what
`json.loads` accepts, including the non-standard `NaN` and `Infinity`
literals that Python allows by default. -/
def parseVal : Nat → List Char → Option (Json × List Char)
  | 0, _ => none
  | Nat.succ fuel, cs =>
    match skipWs cs with
    | 'n' :: 'u' :: 'l' :: 'l' :: r => some (.null, r)
    | 't' :: 'r' :: 'u' :: 'e' :: r => some (.bool true, r)
    | 'f' :: 'a' :: 'l' :: 's' :: 'e' :: r => some (.bool false, r)
    | 'N' :: 'a' :: 'N' :: r => some (.num "NaN", r)
    | 'I' :: 'n' :: 'f' :: 'i' :: 'n' :: 'i' :: 't' :: 'y' :: r => some (.num "Infinity", r)
    | '-' :: 'I' :: 'n' :: 'f' :: 'i' :: 'n' :: 'i' :: 't' :: 'y' :: r =>
      some (.num "-Infinity", r)
    | '"' :: r =>
      match parseStringBody r with
      | some (s, rest) => some (.str (String.mk s), rest)
      | none => none
    | '[' :: r =>
      match skipWs r with
      | ']' :: r2 => some (.arr [], r2)
      | r2 => parseArrItems fuel [] r2
    | '\x7b' :: r =>
      match skipWs r with
      | '\x7d' :: r2 => some (.obj [], r2)
      | r2 => parseObjItems fuel [] r2
    | c :: r =>
      if c == '-' || isDigitChar c then parseNumber (c :: r) else none
    | [] => none

/-- Comma-separated array elements up to the closing bracket. -/
def parseArrItems : Nat → List Json → List Char → Option (Json × List Char)
  | 0, _, _ => none
  | Nat.succ fuel, acc, cs =>
    match parseVal fuel cs with
    | none => none
    | some (v, r) =>
      match skipWs r with
      | ',' :: r2 => parseArrItems fuel (v :: acc) r2
      | ']' :: r2 => some (.arr (v :: acc).reverse, r2)
      | _ => none

/-- Comma-separated `"key": value` members up to the closing brace. -/
def parseObjItems : Nat → List (String × Json) → List Char → Option (Json × List Char)
  | 0, _, _ => none
  | Nat.succ fuel, acc, cs =>
    match skipWs cs with
    | '"' :: r =>
      match parseStringBody r with
      | none => none
      | some (k, r2) =>
        match skipWs r2 with
        | ':' :: r3 =>
          match parseVal fuel r3 with
          | none => none
          | some (v, r4) =>
            match skipWs r4 with
            | ',' :: r5 => parseObjItems fuel ((String.mk k, v) :: acc) r5
            | '\x7d' :: r5 => some (.obj ((String.mk k, v) :: acc).reverse, r5)
            | _ => none
        | _ => none
    | _ => none

end

/-- Model of Python `json.loads`: `some v` when the whole input is one JSON
value (with surrounding whitespace), `none` where the Python call raises
`json.JSONDecodeError`. -/
def jsonLoads (s : String) : Option Json :=
  match parseVal (2 * s.length + 2) s.data with
  | some (v, rest) => if skipWs rest = [] then some v else none
  | none => none

/-- The command built by `list_accounts` (dupe_finder.py line 16). -/
def accountListCmd : List String :=
  ["op", "account", "list", "--format", "json"]

/-- The command built by `list_vaults` (dupe_finder.py line 21). -/
def vaultListCmd (account_user_id : String) : List String :=
  ["op", "vault", "list", "--account", account_user_id, "--format", "json"]

/-- The command built by `list_items_in_vault` (dupe_finder.py lines 26-36). -/
def itemListCmd (account_user_id vault_name : String) : List String :=
  ["op", "item", "list", "--vault", vault_name, "--account", account_user_id,
   "--format", "json"]

/-- `list_accounts` (dupe_finder.py lines 15-18).  `run` is the subprocess
boundary: the captured standard output of the given command, or the
exception `subprocess.run` itself raises.  The Python body is
`json.loads(result.stdout) if result.stdout else []`; a raising `json.loads`
surfaces as `.error .jsonDecode`. -/
def list_accounts (run : List String → Except PyErr String) : Except PyErr Json :=
  match run accountListCmd with
  | .error e => .error e
  | .ok stdout =>
    if stdout = "" then .ok (.arr [])
    else
      match jsonLoads stdout with
      | some v => .ok v
      | none => .error .jsonDecode

/-- `list_vaults` (dupe_finder.py lines 20-23). -/
def list_vaults (run : List String → Except PyErr String)
    (account_user_id : String) : Except PyErr Json :=
  match run (vaultListCmd account_user_id) with
  | .error e => .error e
  | .ok stdout =>
    if stdout = "" then .ok (.arr [])
    else
      match jsonLoads stdout with
      | some v => .ok v
      | none => .error .jsonDecode

/-- `list_items_in_vault` (dupe_finder.py lines 25-38). -/
def list_items_in_vault (run : List String → Except PyErr String)
    (account_user_id vault_name : String) : Except PyErr Json :=
  match run (itemListCmd account_user_id vault_name) with
  | .error e => .error e
  | .ok stdout =>
    if stdout = "" then .ok (.arr [])
    else
      match jsonLoads stdout with
      | some v => .ok v
      | none => .error .jsonDecode

/-- One decoded vault item record.  `id`, `title` and `updated_at` model
`item.get(...)` on the decoded JSON object (`none` when the key is absent;
the external contract of the store makes present values strings).  `other`
carries the remaining fields of the record so that items are passed through
whole, as in the Python code. -/
structure Item where
  id : Option String
  title : Option String
  updated_at : Option String
  other : List (String × String)
deriving DecidableEq

/-- Python truthiness of an optional string field: `None` and `""` are
falsy, every other string is truthy. -/
def truthy : Option String → Bool
  | none => false
  | some s => !(s == "")

/-- The validation test of dupe_finder.py line 64:
`if title and updated_at and item_id`. -/
def validItem (it : Item) : Bool :=
  truthy it.title && truthy it.updated_at && truthy it.id

/-- The items that pass the line-64 validation, in input order. -/
def validItems (items : List Item) : List Item :=
  items.filter validItem

/-- The grouping key of an item: its title string (valid items always carry
`some t` with `t ≠ ""`, so the default is never used on them). -/
def titleKey (it : Item) : String := it.title.getD ""

/-- The sort key of an item: its `updated_at` string (dupe_finder.py line 73). -/
def updKey (it : Item) : String := it.updated_at.getD ""

/-- The distinct titles of the given items in first-occurrence order: the
iteration order of the keys of the `defaultdict` built on lines 56-65. -/
def firstKeys : List Item → List String
  | [] => []
  | it :: rest => titleKey it :: (firstKeys rest).filter (fun s => !(s == titleKey it))

/-- The list `item_dict[t]`: the valid items carrying title `t`, in input
order. -/
def groupFor (l : List Item) (t : String) : List Item :=
  l.filter (fun it => titleKey it == t)

/-- Python string `<`: lexicographic comparison of the code points, written
on the underlying character lists so that it evaluates by reduction. -/
def strLtB (a b : String) : Bool := decide (a.data < b.data)

/-- Python string `<=` (the negation of `>`). -/
def strLeB (a b : String) : Bool := !(strLtB b a)

/-- Insert an item into a list that is sorted by `updated_at` descending,
before the first entry whose key is less than or equal to its own.  Putting
the new item after entries with an equal key is what makes the sort below
stable. -/
def insertDesc (x : Item) : List Item → List Item
  | [] => [x]
  | y :: ys => if strLeB (updKey y) (updKey x) then x :: y :: ys else y :: insertDesc x ys

/-- Stable sort by `updated_at` descending: the extensional behaviour of
`sorted(items_for_title, key=lambda x: x["updated_at"], reverse=True)`
(Python's sort is stable, and `reverse=True` keeps equal keys in input
order). -/
def sortDesc : List Item → List Item
  | [] => []
  | x :: xs => insertDesc x (sortDesc xs)

/-- The pure core of `find_duplicates` (dupe_finder.py lines 56-78), taking
the decoded item list of the vault: group the valid items by title in
first-occurrence order, keep the groups with more than one member, and sort
each of them by `updated_at` descending.  The spinner, the `time.sleep`
call and the subprocess call that obtains `items` are presentation and I/O
around this computation. -/
def find_duplicates (items : List Item) : List (String × List Item) :=
  let valid := validItems items
  (firstKeys valid).filterMap (fun t =>
    let g := groupFor valid t
    if 1 < g.length then some (t, sortDesc g) else none)

/-- The kept element of a group: `items_list[0]` (dupe_finder.py line 189). -/
def keepItem (g : List Item) : Option Item := g.head?

/-- The archived elements of a group: `items_list[1:]` (line 190). -/
def archiveCandidates (g : List Item) : List Item := g.drop 1

/-- Valid items have pairwise distinct titles. -/
def distinctTitles (items : List Item) : Prop :=
  (validItems items).Pairwise (fun a b => titleKey a ≠ titleKey b)

/-- A shorthand for a fully populated item record, used in the concrete
checks and witnesses below. -/
def exItem (i t u : String) : Item :=
  { id := some i, title := some t, updated_at := some u, other := [] }

/-- Observable effects of `main`: console output lines and subprocess
invocations made by the archival loop. -/
inductive Effect where
  | print (s : String)
  | runCmd (cmd : List String)
deriving DecidableEq

/-- Whether an effect is a subprocess invocation. -/
def isRun : Effect → Bool
  | .print _ => false
  | .runCmd _ => true

/-- A trace made of console output only. -/
def noRun (tr : List Effect) : Prop := ∀ e ∈ tr, isRun e = false

/-- The archive command built on dupe_finder.py lines 194-204. -/
def deleteCmd (item_id vault_name account_user_id : String) : List String :=
  ["op", "item", "delete", item_id, "--vault", vault_name, "--archive",
   "--account", account_user_id]

/-- The dry-run line printed on line 206 for a would-be command. -/
def dryRunMsg (cmd : List String) : String :=
  "[yellow][DRY RUN][/yellow] [bold]Would run:[/bold] " ++ " ".intercalate cmd

/-- The archival loop of `main` (dupe_finder.py lines 188-211): for every
group, keep `items_list[0]` and visit `items_list[1:]`; each visited item
yields either the dry-run print or the actual subprocess invocation.  The
progress-bar updates are presentation and are not part of the trace. -/
def archiveLoop (dry : Bool) (vault_name account_user_id : String)
    (dups : List (String × List Item)) : List Effect :=
  (dups.map (fun p =>
    (archiveCandidates p.2).map (fun it =>
      let cmd := deleteCmd (it.id.getD "") vault_name account_user_id
      if dry then Effect.print (dryRunMsg cmd) else Effect.runCmd cmd))).flatten

/-- One record of the decoded `op account list` output; the script reads
exactly these three fields. -/
structure Account where
  url : String
  email : String
  user_uuid : String
deriving DecidableEq

/-- One record of the decoded `op vault list` output; the script reads only
the name. -/
structure Vault where
  name : String
deriving DecidableEq

/-- The menu line shown for an account (dupe_finder.py lines 126 and 151). -/
def accountOption (a : Account) : String :=
  a.url ++ " - " ++ a.email ++ " - " ++ a.user_uuid

/-- The console output of `select_option` (lines 85-91): prompt, numbered
options, input prompt.  The re-prompt iterations for invalid entries are
not represented; the model takes the eventual choice below. -/
def select_optionEffects (options : List String) (prompt : String) : List Effect :=
  Effect.print ("\n[bold]" ++ prompt ++ "[/bold]\n") ::
    options.enum.map (fun io => Effect.print ("  " ++ toString (io.1 + 1) ++ ". " ++ io.2))
    ++ [Effect.print "\nEnter the number of your choice: "]

/-- The value returned by `select_option` for the operator input `pick`
(lines 92-93): the chosen option when `pick` is a digit string in range,
`none` when that input would be rejected and the loop would continue. -/
def select_optionChoice (options : List String) (pick : Nat) : Option String :=
  if 1 ≤ pick ∧ pick ≤ options.length then options.get? (pick - 1) else none

/-- The environment of one run of `main`: the decoded listing results the
external CLI produces and the operator's console inputs. -/
structure Env where
  accounts : List Account
  vaults : List Vault
  items : List Item
  accountPick : Nat
  vaultPick : Nat
  confirm : String

def introEffects : List Effect :=
  [Effect.print "\n[bold cyan]--- 1Password Duplicate Archiver ---[/bold cyan]",
   Effect.print "[green]Use --dry to preview archiving actions without executing them.[/green]\n"]

def noAccountsMsg : String :=
  "[red]No accounts found. Please ensure you are signed in to 1Password CLI.[/red]"

def noVaultsMsg : String := "[red]No vaults found for this account.[/red]"

def noDuplicatesMsg : String := "[green]No duplicates found in this vault.[/green]"

def abortMsg : String := "[red]Aborting: No items were archived.[/red]"

def doneMsg : String := "\n[green]Done![/green] The duplicates have been archived."

/-- `total_duplicates` computed on lines 164-166. -/
def totalDuplicates (dups : List (String × List Item)) : Nat :=
  (dups.map (fun p => p.2.length - 1)).sum

/-- The duplicate summary printed on lines 168-171. -/
def summaryEffects (dups : List (String × List Item)) : List Effect :=
  Effect.print ("\n[yellow]" ++ toString (totalDuplicates dups) ++
      " duplicate items[/yellow] were found across " ++ toString dups.length ++
      " titles.\n") ::
    dups.map (fun p =>
      Effect.print (" â€¢ [blue]" ++ p.1 ++ "[/blue]: " ++ toString (p.2.length - 1) ++
        " duplicates (of " ++ toString p.2.length ++ ")"))

def confirmPromptEffect : Effect :=
  Effect.print "\nWould you like to archive these duplicates now? (y/N): "

/-- Model of Python `str.lower()` on the operator's confirmation input,
written on the character list so that it evaluates by reduction (like
`Char.toLower` it lowers the ASCII range, which covers the `y`/`N`
answers the prompt is about). -/
def strLower (s : String) : String := String.mk (s.data.map Char.toLower)

/-- `main` from the vault-selection print onwards (dupe_finder.py lines
156-213): report when there are no duplicates, otherwise summarize, ask for
confirmation, and on a `y` answer run the archival loop. -/
def mainRest (dry : Bool) (account_user_id vault_name : String) (items : List Item)
    (confirm : String) : List Effect :=
  let selMsg := Effect.print ("\n[bold]Selected Vault:[/bold] [yellow]" ++ vault_name ++ "[/yellow]")
  let duplicates := find_duplicates items
  if duplicates.isEmpty then [selMsg, Effect.print noDuplicatesMsg]
  else if strLower confirm ≠ "y" then
    (selMsg :: summaryEffects duplicates) ++ [confirmPromptEffect, Effect.print abortMsg]
  else
    (selMsg :: summaryEffects duplicates) ++ [confirmPromptEffect, Effect.print ""] ++
      archiveLoop dry vault_name account_user_id duplicates ++ [Effect.print doneMsg]

/-- The whole `main` command (dupe_finder.py lines 98-213) over the decoded
listing results.  `some trace` is ordinary successful termination with the
given console/subprocess trace (the script never exits non-zero on these
paths); `none` is the run that stays forever inside a `select_option`
re-prompt loop. -/
def mainRun (vaultArg : Option String) (dry : Bool) (env : Env) : Option (List Effect) :=
  match vaultArg with
  | none =>
    if env.accounts.isEmpty then some (introEffects ++ [Effect.print noAccountsMsg])
    else
      let accountOptions := env.accounts.map accountOption
      match select_optionChoice accountOptions env.accountPick with
      | none => none
      | some chosen_account_str =>
        let chosen_index := accountOptions.indexOf chosen_account_str
        let account_user_id := (env.accounts.getD chosen_index ⟨"", "", ""⟩).user_uuid
        let eff1 := select_optionEffects accountOptions "Select an account:"
        if env.vaults.isEmpty then
          some (introEffects ++ eff1 ++ [Effect.print noVaultsMsg])
        else
          let vaultOptions := env.vaults.map Vault.name
          match select_optionChoice vaultOptions env.vaultPick with
          | none => none
          | some vault_name =>
            some (introEffects ++ eff1 ++ select_optionEffects vaultOptions "Select a vault:" ++
              mainRest dry account_user_id vault_name env.items env.confirm)
  | some vault_name =>
    if env.accounts.isEmpty then some (introEffects ++ [Effect.print noAccountsMsg])
    else if env.accounts.length == 1 then
      some (introEffects ++
        mainRest dry (env.accounts.getD 0 ⟨"", "", ""⟩).user_uuid vault_name env.items env.confirm)
    else
      let accountOptions := env.accounts.map accountOption
      match select_optionChoice accountOptions env.accountPick with
      | none => none
      | some chosen_account_str =>
        let chosen_index := accountOptions.indexOf chosen_account_str
        let account_user_id := (env.accounts.getD chosen_index ⟨"", "", ""⟩).user_uuid
        some (introEffects ++
          select_optionEffects accountOptions "Multiple accounts found. Select one:" ++
          mainRest dry account_user_id vault_name env.items env.confirm)

/-! ### Concrete checks of the executable embedding -/

example : jsonLoads "oops" = none := by rfl
example : jsonLoads "[]" = some (.arr []) := by rfl
example : jsonLoads " [1, \"a\", null] " =
    some (.arr [.num "1", .str "a", .null]) := by rfl

example : find_duplicates [] = [] := by rfl

example :
    find_duplicates
      [exItem "1" "A" "2024-01-01", exItem "2" "A" "2024-03-01",
       exItem "3" "B" "2024-01-01"] =
      [("A", [exItem "2" "A" "2024-03-01", exItem "1" "A" "2024-01-01"])] := by
  decide

example :
    find_duplicates
      [exItem "1" "A" "2024-01-01", exItem "2" "A" "2024-01-01"] =
      [("A", [exItem "1" "A" "2024-01-01", exItem "2" "A" "2024-01-01"])] := by
  decide

example :
    find_duplicates
      [{ id := some "1", title := some "A", updated_at := none, other := [] },
       exItem "2" "A" "2024-01-01"] = [] := by
  decide

/-! ### Order facts about the string comparison used by the sort -/

theorem strLtB_iff {a b : String} : strLtB a b = true ↔ a < b := by
  rw [String.lt_iff_toList_lt]
  simp [strLtB, String.toList]

theorem strLeB_iff {a b : String} : strLeB a b = true ↔ a ≤ b := by
  rw [String.le_iff_toList_le, ← not_lt]
  simp [strLeB, strLtB, String.toList]

theorem lt_of_not_strLeB {a b : String} (h : ¬ strLeB a b = true) : b < a := by
  have h' : strLtB b a = true := by
    by_contra hfalse
    exact h (by simp [strLeB, Bool.eq_false_iff.mpr hfalse])
  exact strLtB_iff.mp h'

/-! ### The stable descending sort -/

theorem insertDesc_perm (x : Item) (l : List Item) : (insertDesc x l).Perm (x :: l) := by
  induction l with
  | nil => simp [insertDesc]
  | cons y ys ih =>
    by_cases hc : strLeB (updKey y) (updKey x) = true
    · rw [insertDesc, if_pos hc]
    · rw [insertDesc, if_neg hc]
      exact (ih.cons y).trans (List.Perm.swap x y ys)

theorem mem_insertDesc {a x : Item} {l : List Item} :
    a ∈ insertDesc x l ↔ a = x ∨ a ∈ l := by
  rw [(insertDesc_perm x l).mem_iff, List.mem_cons]

theorem sortDesc_perm (l : List Item) : (sortDesc l).Perm l := by
  induction l with
  | nil => simp [sortDesc]
  | cons x xs ih => exact (insertDesc_perm x (sortDesc xs)).trans (ih.cons x)

theorem mem_sortDesc {a : Item} {l : List Item} : a ∈ sortDesc l ↔ a ∈ l :=
  (sortDesc_perm l).mem_iff

theorem sortDesc_length (l : List Item) : (sortDesc l).length = l.length :=
  (sortDesc_perm l).length_eq

theorem insertDesc_pairwise {x : Item} {l : List Item}
    (h : l.Pairwise (fun a b => updKey b ≤ updKey a)) :
    (insertDesc x l).Pairwise (fun a b => updKey b ≤ updKey a) := by
  induction l with
  | nil => simp [insertDesc]
  | cons y ys ih =>
    rw [List.pairwise_cons] at h
    obtain ⟨hy, hys⟩ := h
    by_cases hc : strLeB (updKey y) (updKey x) = true
    · rw [insertDesc, if_pos hc]
      have hxy : updKey y ≤ updKey x := strLeB_iff.mp hc
      refine List.Pairwise.cons ?_ (List.Pairwise.cons hy hys)
      intro b hb
      rcases List.mem_cons.mp hb with rfl | hb
      · exact hxy
      · exact le_trans (hy b hb) hxy
    · rw [insertDesc, if_neg hc]
      have hyx : updKey x ≤ updKey y := le_of_lt (lt_of_not_strLeB hc)
      refine List.Pairwise.cons ?_ (ih hys)
      intro b hb
      rcases mem_insertDesc.mp hb with rfl | hb
      · exact hyx
      · exact hy b hb

theorem sortDesc_pairwise (l : List Item) :
    (sortDesc l).Pairwise (fun a b => updKey b ≤ updKey a) := by
  induction l with
  | nil => simp [sortDesc]
  | cons x xs ih => exact insertDesc_pairwise ih

theorem filter_insertDesc_pos {x : Item} {u : String} (l : List Item)
    (hx : (updKey x == u) = true) :
    (insertDesc x l).filter (fun a => updKey a == u) =
      x :: l.filter (fun a => updKey a == u) := by
  induction l with
  | nil => simp [insertDesc, List.filter, hx]
  | cons y ys ih =>
    by_cases hc : strLeB (updKey y) (updKey x) = true
    · rw [insertDesc, if_pos hc]
      simp [List.filter, hx]
    · rw [insertDesc, if_neg hc]
      have hyu : (updKey y == u) = false := by
        have h1 : updKey x < updKey y := lt_of_not_strLeB hc
        have h2 : updKey x = u := by simpa using hx
        rw [h2] at h1
        simpa using ne_of_gt h1
      simp only [List.filter, hyu, ih]

theorem filter_insertDesc_neg {x : Item} {u : String} (l : List Item)
    (hx : (updKey x == u) = false) :
    (insertDesc x l).filter (fun a => updKey a == u) =
      l.filter (fun a => updKey a == u) := by
  induction l with
  | nil => simp [insertDesc, List.filter, hx]
  | cons y ys ih =>
    by_cases hc : strLeB (updKey y) (updKey x) = true
    · rw [insertDesc, if_pos hc]
      simp [List.filter, hx]
    · rw [insertDesc, if_neg hc]
      simp only [List.filter, ih]

theorem filter_sortDesc (l : List Item) (u : String) :
    (sortDesc l).filter (fun a => updKey a == u) =
      l.filter (fun a => updKey a == u) := by
  induction l with
  | nil => simp [sortDesc]
  | cons x xs ih =>
    rw [sortDesc]
    by_cases hx : (updKey x == u) = true
    · rw [filter_insertDesc_pos _ hx, ih, List.filter, hx]
    · have hx' : (updKey x == u) = false := by simpa using hx
      rw [filter_insertDesc_neg _ hx', ih, List.filter, hx']

/-! ### Grouping facts -/

theorem mem_groupFor {it : Item} {l : List Item} {t : String} :
    it ∈ groupFor l t ↔ it ∈ l ∧ titleKey it = t := by
  simp [groupFor, List.mem_filter]

theorem firstKeys_nodup (l : List Item) : (firstKeys l).Nodup := by
  induction l with
  | nil => simp [firstKeys]
  | cons it rest ih =>
    rw [firstKeys]
    refine List.Nodup.cons ?_ (ih.filter _)
    intro hmem
    have := List.of_mem_filter hmem
    simp at this

theorem mem_firstKeys {t : String} {l : List Item} :
    t ∈ firstKeys l ↔ ∃ it ∈ l, titleKey it = t := by
  induction l with
  | nil => simp [firstKeys]
  | cons a rest ih =>
    rw [firstKeys]
    constructor
    · intro h
      rcases List.mem_cons.mp h with rfl | h
      · exact ⟨a, List.mem_cons_self a rest, rfl⟩
      · obtain ⟨it, hit, rfl⟩ := ih.mp (List.mem_of_mem_filter h)
        exact ⟨it, List.mem_cons_of_mem a hit, rfl⟩
    · rintro ⟨it, hit, rfl⟩
      rcases List.mem_cons.mp hit with rfl | hit
      · exact List.mem_cons_self _ _
      · by_cases he : titleKey it = titleKey a
        · rw [he]; exact List.mem_cons_self _ _
        · refine List.mem_cons_of_mem _ (List.mem_filter.mpr ⟨ih.mpr ⟨it, hit, rfl⟩, ?_⟩)
          simpa using he

theorem groupFor_cons (a : Item) (l : List Item) (t : String) :
    groupFor (a :: l) t =
      if titleKey a == t then a :: groupFor l t else groupFor l t := by
  simp [groupFor, List.filter_cons]

theorem groupFor_eq_nil_of_not_mem_firstKeys {t : String} {l : List Item}
    (h : t ∉ firstKeys l) : groupFor l t = [] := by
  rw [groupFor, List.filter_eq_nil_iff]
  intro it hit hbeq
  exact h (mem_firstKeys.mpr ⟨it, hit, by simpa using hbeq⟩)

theorem mem_find_duplicates {items : List Item} {p : String × List Item} :
    p ∈ find_duplicates items ↔
      p.1 ∈ firstKeys (validItems items) ∧
        1 < (groupFor (validItems items) p.1).length ∧
        p.2 = sortDesc (groupFor (validItems items) p.1) := by
  simp only [find_duplicates, List.mem_filterMap]
  constructor
  · rintro ⟨t, ht, hf⟩
    by_cases hlen : 1 < (groupFor (validItems items) t).length
    · rw [if_pos hlen] at hf
      obtain rfl := Option.some_injective _ hf
      exact ⟨ht, hlen, rfl⟩
    · rw [if_neg hlen] at hf
      cases hf
  · rintro ⟨ht, hlen, hsnd⟩
    refine ⟨p.1, ht, ?_⟩
    rw [if_pos hlen, ← hsnd]

theorem valid_of_mem_group {items : List Item} {p : String × List Item} {it : Item}
    (hp : p ∈ find_duplicates items) (hit : it ∈ p.2) :
    it ∈ items ∧ validItem it = true ∧ titleKey it = p.1 := by
  obtain ⟨-, -, hsnd⟩ := mem_find_duplicates.mp hp
  rw [hsnd, mem_sortDesc] at hit
  obtain ⟨hvalid, htitle⟩ := mem_groupFor.mp hit
  exact ⟨List.mem_of_mem_filter hvalid, List.of_mem_filter hvalid, htitle⟩

theorem length_of_mem_find_duplicates {items : List Item} {p : String × List Item}
    (hp : p ∈ find_duplicates items) : 2 ≤ p.2.length := by
  obtain ⟨-, hlen, hsnd⟩ := mem_find_duplicates.mp hp
  rw [hsnd, sortDesc_length]
  omega

theorem groupFor_length_le_one_of_distinct {l : List Item} {t : String}
    (h : l.Pairwise (fun a b => titleKey a ≠ titleKey b)) :
    (groupFor l t).length ≤ 1 := by
  induction l with
  | nil => simp [groupFor]
  | cons a rest ih =>
    rw [List.pairwise_cons] at h
    obtain ⟨ha, hrest⟩ := h
    rw [groupFor_cons]
    by_cases hat : (titleKey a == t) = true
    · rw [if_pos hat]
      have hnil : groupFor rest t = [] := by
        rw [groupFor, List.filter_eq_nil_iff]
        intro b hb hbeq
        exact ha b hb (by rw [eq_of_beq hat, eq_of_beq hbeq])
      simp [hnil]
    · rw [if_neg hat]
      exact ih hrest

/-! ### The groups partition the valid duplicate items -/

theorem filterMap_guard_fst {α β : Type} (ks : List α) (q : α → Prop) [DecidablePred q]
    (h : α → β) :
    (ks.filterMap (fun t => if q t then some (t, h t) else none)).map Prod.fst =
      ks.filter (fun t => decide (q t)) := by
  induction ks with
  | nil => simp
  | cons k ks ih =>
    rw [List.filterMap_cons, List.filter_cons]
    by_cases hq : q k
    · simp [hq, ih]
    · simp [hq, ih]

theorem filterMap_guard_snd {α β : Type} (ks : List α) (q : α → Prop) [DecidablePred q]
    (h : α → β) :
    (ks.filterMap (fun t => if q t then some (t, h t) else none)).map Prod.snd =
      (ks.filter (fun t => decide (q t))).map h := by
  induction ks with
  | nil => simp
  | cons k ks ih =>
    rw [List.filterMap_cons, List.filter_cons]
    by_cases hq : q k
    · simp [hq, ih]
    · simp [hq, ih]

theorem find_duplicates_map_fst (items : List Item) :
    (find_duplicates items).map Prod.fst =
      (firstKeys (validItems items)).filter
        (fun t => decide (1 < (groupFor (validItems items) t).length)) := by
  simp only [find_duplicates]
  exact filterMap_guard_fst _ _ _

theorem find_duplicates_map_snd (items : List Item) :
    (find_duplicates items).map Prod.snd =
      ((firstKeys (validItems items)).filter
        (fun t => decide (1 < (groupFor (validItems items) t).length))).map
          (fun t => sortDesc (groupFor (validItems items) t)) := by
  simp only [find_duplicates]
  exact filterMap_guard_snd _ _ _

theorem flatten_map_perm {α β : Type} {ks : List α} {f g : α → List β}
    (h : ∀ a ∈ ks, (f a).Perm (g a)) : ((ks.map f).flatten).Perm ((ks.map g).flatten) := by
  induction ks with
  | nil => simp
  | cons k ks ih =>
    simp only [List.map_cons, List.flatten_cons]
    exact (h k (List.mem_cons_self k ks)).append
      (ih (fun a ha => h a (List.mem_cons_of_mem k ha)))

theorem flatten_map_extract {β : Type} (ks : List String) (f : String → List β) (t : String)
    (hnd : ks.Nodup) (ht : t ∈ ks) :
    ((ks.map f).flatten).Perm
      (f t ++ ((ks.filter (fun s => !(s == t))).map f).flatten) := by
  induction ks with
  | nil => cases ht
  | cons k ks ih =>
    rw [List.nodup_cons] at hnd
    obtain ⟨hk, hnd⟩ := hnd
    rcases List.mem_cons.mp ht with rfl | ht
    · have hfilter : ks.filter (fun s => !(s == t)) = ks := by
        rw [List.filter_eq_self]
        intro s hs
        simp only [Bool.not_eq_eq_eq_not, Bool.not_true, beq_eq_false_iff_ne, ne_eq]
        rintro rfl
        exact hk hs
      simp [hfilter]
    · have hkt : (k == t) = false := by
        simp only [beq_eq_false_iff_ne, ne_eq]
        rintro rfl
        exact hk ht
      rw [List.map_cons, List.flatten_cons, List.filter_cons, hkt]
      simp only [Bool.not_false, List.map_cons, List.flatten_cons, if_true]
      exact ((ih hnd ht).append_left (f k)).trans
        (List.perm_append_comm_assoc (f k) (f t) _)

theorem flatten_firstKeys_groupFor_perm (l : List Item) :
    (((firstKeys l).map (groupFor l)).flatten).Perm l := by
  induction l with
  | nil => simp [firstKeys]
  | cons it rest ih =>
    rw [firstKeys, List.map_cons, List.flatten_cons]
    have hhead : groupFor (it :: rest) (titleKey it) = it :: groupFor rest (titleKey it) := by
      rw [groupFor_cons, if_pos (by simp)]
    have htail :
        ((firstKeys rest).filter (fun s => !(s == titleKey it))).map (groupFor (it :: rest)) =
          ((firstKeys rest).filter (fun s => !(s == titleKey it))).map (groupFor rest) := by
      apply List.map_congr_left
      intro s hs
      have hmem := List.of_mem_filter hs
      have hne : (titleKey it == s) = false := by
        simp only [Bool.not_eq_eq_eq_not, Bool.not_true, beq_eq_false_iff_ne, ne_eq] at hmem
        simp only [beq_eq_false_iff_ne, ne_eq]
        exact fun h => hmem h.symm
      rw [groupFor_cons, hne]
      simp
    rw [hhead, htail, List.cons_append]
    apply List.Perm.cons
    by_cases hmem : titleKey it ∈ firstKeys rest
    · exact ((flatten_map_extract _ (groupFor rest) _ (firstKeys_nodup rest) hmem).symm).trans ih
    · have h1 : groupFor rest (titleKey it) = [] :=
        groupFor_eq_nil_of_not_mem_firstKeys hmem
      have h2 : (firstKeys rest).filter (fun s => !(s == titleKey it)) = firstKeys rest := by
        rw [List.filter_eq_self]
        intro s hs
        simp only [Bool.not_eq_eq_eq_not, Bool.not_true, beq_eq_false_iff_ne, ne_eq]
        rintro rfl
        exact hmem hs
      rw [h1, h2, List.nil_append]
      exact ih

theorem filter_flatten {α : Type} (p : α → Bool) (L : List (List α)) :
    L.flatten.filter p = (L.map (List.filter p)).flatten := by
  induction L with
  | nil => simp
  | cons xs L ih => simp [List.filter_append, ih]

theorem groupFor_filter_titlePred (l : List Item) (t : String) (q : String → Bool) :
    (groupFor l t).filter (fun it => q (titleKey it)) =
      if q t then groupFor l t else [] := by
  by_cases hq : q t = true
  · rw [if_pos hq, List.filter_eq_self]
    intro it hit
    rw [(mem_groupFor.mp hit).2]
    exact hq
  · rw [if_neg hq, List.filter_eq_nil_iff]
    intro it hit hqt
    rw [(mem_groupFor.mp hit).2] at hqt
    exact hq hqt

theorem flatten_map_ite {α β : Type} (ks : List α) (q : α → Bool) (g : α → List β) :
    (ks.map (fun t => if q t then g t else [])).flatten = ((ks.filter q).map g).flatten := by
  induction ks with
  | nil => simp
  | cons k ks ih =>
    rw [List.map_cons, List.flatten_cons, List.filter_cons]
    by_cases hq : q k = true
    · simp only [hq, if_true, List.map_cons, List.flatten_cons, ih]
    · have hq' : q k = false := Bool.eq_false_iff.mpr hq
      simp only [hq', if_false, List.nil_append, ih, Bool.false_eq_true]

theorem find_duplicates_flatten_perm (items : List Item) :
    (((find_duplicates items).map Prod.snd).flatten).Perm
      ((validItems items).filter
        (fun it => decide (1 < (groupFor (validItems items) (titleKey it)).length))) := by
  have h1 := (flatten_firstKeys_groupFor_perm (validItems items)).filter
    (fun it => decide (1 < (groupFor (validItems items) (titleKey it)).length))
  rw [filter_flatten, List.map_map] at h1
  have h3 : (firstKeys (validItems items)).map
      ((List.filter (fun it => decide (1 < (groupFor (validItems items) (titleKey it)).length))) ∘
        (groupFor (validItems items))) =
      (firstKeys (validItems items)).map
        (fun t => if decide (1 < (groupFor (validItems items) t).length)
          then groupFor (validItems items) t else []) := by
    apply List.map_congr_left
    intro t _
    simp only [Function.comp_apply]
    exact groupFor_filter_titlePred (validItems items) t
      (fun s => decide (1 < (groupFor (validItems items) s).length))
  rw [h3, flatten_map_ite] at h1
  rw [find_duplicates_map_snd]
  exact (flatten_map_perm (fun a _ => sortDesc_perm _)).trans h1

theorem find_duplicates_eq_nil_of_distinct {items : List Item}
    (h : distinctTitles items) : find_duplicates items = [] := by
  simp only [find_duplicates]
  rw [List.filterMap_eq_nil_iff]
  intro t _
  rw [if_neg]
  have := groupFor_length_le_one_of_distinct (t := t) h
  omega

/-! ### Traces that contain no subprocess invocation -/

theorem noRun_append {t1 t2 : List Effect} (h1 : noRun t1) (h2 : noRun t2) :
    noRun (t1 ++ t2) := by
  intro e he
  rcases List.mem_append.mp he with h | h
  · exact h1 e h
  · exact h2 e h

theorem noRun_cons {s : String} {t : List Effect} (h : noRun t) :
    noRun (Effect.print s :: t) := by
  intro e he
  rcases List.mem_cons.mp he with rfl | he
  · rfl
  · exact h e he

theorem noRun_nil : noRun [] := by
  intro e he
  cases he

theorem noRun_introEffects : noRun introEffects := by
  intro e he
  rcases List.mem_cons.mp he with rfl | he
  · rfl
  · rcases List.mem_cons.mp he with rfl | he
    · rfl
    · cases he

theorem noRun_select_optionEffects (options : List String) (prompt : String) :
    noRun (select_optionEffects options prompt) := by
  intro e he
  simp only [select_optionEffects] at he
  rcases List.mem_cons.mp he with rfl | he
  · rfl
  · rcases List.mem_append.mp he with h | h
    · obtain ⟨io, -, rfl⟩ := List.mem_map.mp h
      rfl
    · rcases List.mem_cons.mp h with rfl | h
      · rfl
      · cases h

theorem noRun_summaryEffects (dups : List (String × List Item)) :
    noRun (summaryEffects dups) := by
  intro e he
  simp only [summaryEffects] at he
  rcases List.mem_cons.mp he with rfl | he
  · rfl
  · obtain ⟨p, -, rfl⟩ := List.mem_map.mp he
    rfl

theorem noRun_archiveLoop_true (v a : String) (dups : List (String × List Item)) :
    noRun (archiveLoop true v a dups) := by
  intro e he
  simp only [archiveLoop, List.mem_flatten] at he
  obtain ⟨l, hl, hel⟩ := he
  obtain ⟨p, -, rfl⟩ := List.mem_map.mp hl
  obtain ⟨it, -, rfl⟩ := List.mem_map.mp hel
  rfl

theorem noRun_mainRest_true (account_user_id vault_name : String) (items : List Item)
    (confirm : String) : noRun (mainRest true account_user_id vault_name items confirm) := by
  rw [mainRest]
  by_cases hdup : (find_duplicates items).isEmpty = true
  · rw [if_pos hdup]
    exact noRun_cons (noRun_cons noRun_nil)
  · rw [if_neg hdup]
    by_cases hconfirm : strLower confirm ≠ "y"
    · rw [if_pos hconfirm]
      refine noRun_append (noRun_cons (noRun_summaryEffects _)) ?_
      exact noRun_cons (noRun_cons noRun_nil)
    · rw [if_neg hconfirm]
      refine noRun_append (noRun_append (noRun_append
        (noRun_cons (noRun_summaryEffects _)) (noRun_cons (noRun_cons noRun_nil))) ?_) ?_
      · exact noRun_archiveLoop_true _ _ _
      · exact noRun_cons noRun_nil

/-! ### Claims -/

/-- C1, counterexample: the claim says a listing call whose subprocess
output is not valid JSON (or whose CLI is unavailable) returns an empty
sequence; in fact `list_accounts` propagates the `json.JSONDecodeError`
of `json.loads("oops")`, and `list_items_in_vault` propagates the
`FileNotFoundError` of a missing binary, so neither returns `[]`. -/
theorem c1_counterexample :
    list_accounts (fun _ => .ok "oops") = .error PyErr.jsonDecode ∧
      list_accounts (fun _ => .ok "oops") ≠ .ok (Json.arr []) ∧
      list_items_in_vault (fun _ => .error .fileNotFound) "u" "v" =
        .error PyErr.fileNotFound ∧
      list_items_in_vault (fun _ => .error .fileNotFound) "u" "v" ≠ .ok (Json.arr []) := by
  refine ⟨rfl, ?_, rfl, ?_⟩ <;> intro h <;> cases h

/-- C1 (amended): only an empty standard output makes a listing call return
an empty sequence; a raised subprocess error (unavailable CLI) propagates,
and non-empty output that is not valid JSON raises a JSON decode error
(valid JSON output is returned decoded). -/
theorem c1_listing_output_handling (run : List String → Except PyErr String)
    (a v : String) :
    (run accountListCmd = .ok "" → list_accounts run = .ok (Json.arr [])) ∧
    (run (vaultListCmd a) = .ok "" → list_vaults run a = .ok (Json.arr [])) ∧
    (run (itemListCmd a v) = .ok "" → list_items_in_vault run a v = .ok (Json.arr [])) ∧
    (∀ e, run accountListCmd = .error e → list_accounts run = .error e) ∧
    (∀ e, run (vaultListCmd a) = .error e → list_vaults run a = .error e) ∧
    (∀ e, run (itemListCmd a v) = .error e → list_items_in_vault run a v = .error e) ∧
    (∀ s, run accountListCmd = .ok s → s ≠ "" → jsonLoads s = none →
      list_accounts run = .error PyErr.jsonDecode) ∧
    (∀ s, run (vaultListCmd a) = .ok s → s ≠ "" → jsonLoads s = none →
      list_vaults run a = .error PyErr.jsonDecode) ∧
    (∀ s, run (itemListCmd a v) = .ok s → s ≠ "" → jsonLoads s = none →
      list_items_in_vault run a v = .error PyErr.jsonDecode) ∧
    (∀ s j, run accountListCmd = .ok s → jsonLoads s = some j →
      list_accounts run = if s = "" then .ok (Json.arr []) else .ok j) := by
  refine ⟨?_, ?_, ?_, ?_, ?_, ?_, ?_, ?_, ?_, ?_⟩
  · intro h; simp [list_accounts, h]
  · intro h; simp [list_vaults, h]
  · intro h; simp [list_items_in_vault, h]
  · intro e h; simp [list_accounts, h]
  · intro e h; simp [list_vaults, h]
  · intro e h; simp [list_items_in_vault, h]
  · intro s h hne hj; simp [list_accounts, h, hne, hj]
  · intro s h hne hj; simp [list_vaults, h, hne, hj]
  · intro s h hne hj; simp [list_items_in_vault, h, hne, hj]
  · intro s j h hj
    by_cases hne : s = ""
    · subst hne; simp [list_accounts, h]
    · simp [list_accounts, h, hne, hj]

/-- C1, witness: the amended behaviour at concrete subprocess outcomes. -/
theorem c1_witness :
    list_accounts (fun _ => .ok "") = .ok (Json.arr []) ∧
      list_vaults (fun _ => .error .fileNotFound) "u" = .error PyErr.fileNotFound ∧
      list_items_in_vault (fun _ => .ok "not json") "u" "v" = .error PyErr.jsonDecode ∧
      list_accounts (fun _ => .ok "[]") = .ok (Json.arr []) := by
  refine ⟨?_, ?_, ?_, ?_⟩
  · exact (c1_listing_output_handling (fun _ => .ok "") "u" "v").1 rfl
  · obtain ⟨-, -, -, -, h, -⟩ :=
      c1_listing_output_handling (fun _ => .error .fileNotFound) "u" "v"
    exact h PyErr.fileNotFound rfl
  · obtain ⟨-, -, -, -, -, -, -, -, h, -⟩ :=
      c1_listing_output_handling (fun _ => .ok "not json") "u" "v"
    exact h "not json" rfl (by decide) (by rfl)
  · obtain ⟨-, -, -, -, -, -, -, -, -, h⟩ :=
      c1_listing_output_handling (fun _ => .ok "[]") "u" "v"
    have := h "[]" (Json.arr []) rfl (by rfl)
    simpa using this

/-- C2: in every returned group the sequence is sorted by `updated_at`
descending (string comparison), and the head carries the maximum
`updated_at` of the group. -/
theorem c2_groups_sorted_descending (items : List Item) (p : String × List Item)
    (hp : p ∈ find_duplicates items) :
    p.2.Pairwise (fun x y => updKey y ≤ updKey x) ∧
      ∃ x, p.2.head? = some x ∧ ∀ it ∈ p.2, updKey it ≤ updKey x := by
  obtain ⟨-, -, hsnd⟩ := mem_find_duplicates.mp hp
  have hpair : p.2.Pairwise (fun x y => updKey y ≤ updKey x) := by
    rw [hsnd]; exact sortDesc_pairwise _
  refine ⟨hpair, ?_⟩
  have hlen : 2 ≤ p.2.length := length_of_mem_find_duplicates hp
  rcases hq : p.2 with - | ⟨x, rest⟩
  · rw [hq] at hlen; simp at hlen
  · rw [hq] at hpair
    rw [List.pairwise_cons] at hpair
    refine ⟨x, rfl, ?_⟩
    intro it hit
    rcases List.mem_cons.mp hit with rfl | hit
    · exact le_refl _
    · exact hpair.1 it hit

/-- C2, witness: the sorted-descending property at a concrete input. -/
theorem c2_witness :
    (("A", [exItem "2" "A" "2024-03-01", exItem "1" "A" "2024-01-01"]) :
        String × List Item).2.Pairwise (fun x y => updKey y ≤ updKey x) ∧
      ∃ x, (("A", [exItem "2" "A" "2024-03-01", exItem "1" "A" "2024-01-01"]) :
          String × List Item).2.head? = some x ∧
        ∀ it ∈ (("A", [exItem "2" "A" "2024-03-01", exItem "1" "A" "2024-01-01"]) :
            String × List Item).2, updKey it ≤ updKey x :=
  c2_groups_sorted_descending
    [exItem "1" "A" "2024-01-01", exItem "2" "A" "2024-03-01", exItem "3" "B" "2024-01-01"]
    ("A", [exItem "2" "A" "2024-03-01", exItem "1" "A" "2024-01-01"]) (by decide)

/-- C3: every returned group has at least 2 members (so empty input and
all-distinct titles give an empty result), and each group splits into the
kept head (`items_list[0]`) and a non-empty archive-candidate remainder
(`items_list[1:]`). -/
theorem c3_group_sizes (items : List Item) :
    (∀ p ∈ find_duplicates items, 2 ≤ p.2.length ∧
        ∃ k, keepItem p.2 = some k ∧ p.2 = k :: archiveCandidates p.2 ∧
          1 ≤ (archiveCandidates p.2).length) ∧
      find_duplicates ([] : List Item) = [] ∧
      (distinctTitles items → find_duplicates items = []) := by
  refine ⟨?_, rfl, find_duplicates_eq_nil_of_distinct⟩
  intro p hp
  have h2 := length_of_mem_find_duplicates hp
  rcases hq : p.2 with - | ⟨k, rest⟩
  · rw [hq] at h2; simp at h2
  · rw [hq] at h2
    refine ⟨h2, k, rfl, rfl, ?_⟩
    simp only [archiveCandidates, List.drop_succ_cons, List.drop_zero]
    simp only [List.length_cons] at h2
    omega

/-- C3, witness: a concrete duplicate group of size 2, and empty output for
a concrete all-distinct input. -/
theorem c3_witness :
    2 ≤ (("A", [exItem "2" "A" "2024-03-01", exItem "1" "A" "2024-01-01"]) :
        String × List Item).2.length ∧
      find_duplicates [exItem "1" "B" "2024-01-01", exItem "2" "C" "2024-01-01"] = [] := by
  constructor
  · exact ((c3_group_sizes
      [exItem "1" "A" "2024-01-01", exItem "2" "A" "2024-03-01"]).1
      ("A", [exItem "2" "A" "2024-03-01", exItem "1" "A" "2024-01-01"]) (by decide)).1
  · exact (c3_group_sizes
      [exItem "1" "B" "2024-01-01", exItem "2" "C" "2024-01-01"]).2.2 (by
        unfold distinctTitles
        decide)

/-- C4: an item whose `title`, `updated_at` or `id` is missing or empty
fails the line-64 validation and never appears in any returned group; it is
dropped silently (`find_duplicates` returns only the groups, no report of
the dropped items). -/
theorem c4_invalid_items_never_grouped (items : List Item) (it : Item)
    (hinvalid : validItem it = false) :
    ∀ p ∈ find_duplicates items, it ∉ p.2 := by
  intro p hp hmem
  have hv := (valid_of_mem_group hp hmem).2.1
  rw [hinvalid] at hv
  cases hv

/-- C4, witness: a concrete item without `updated_at` is not in the group
built from the remaining items of its title. -/
theorem c4_witness :
    ({ id := some "0", title := some "A", updated_at := none, other := [] } : Item) ∉
      (("A", [exItem "2" "A" "2024-03-01", exItem "1" "A" "2024-01-01"]) :
        String × List Item).2 :=
  c4_invalid_items_never_grouped
    [{ id := some "0", title := some "A", updated_at := none, other := [] },
     exItem "1" "A" "2024-01-01", exItem "2" "A" "2024-03-01"]
    { id := some "0", title := some "A", updated_at := none, other := [] }
    (by decide)
    ("A", [exItem "2" "A" "2024-03-01", exItem "1" "A" "2024-01-01"]) (by decide)

/-- C7: within a group, the items sharing one `updated_at` value appear in
exactly their input order (the order they have among the valid items of
that title), because the sort is stable on equal keys. -/
theorem c7_sort_stable_on_ties (items : List Item) (p : String × List Item)
    (hp : p ∈ find_duplicates items) (u : String) :
    p.2.filter (fun it => updKey it == u) =
      (validItems items).filter (fun it => titleKey it == p.1 && (updKey it == u)) := by
  obtain ⟨-, -, hsnd⟩ := mem_find_duplicates.mp hp
  rw [hsnd, filter_sortDesc, groupFor, List.filter_filter]
  apply List.filter_congr
  intro it _
  exact Bool.and_comm _ _

/-- C7, witness: two items with equal `updated_at` keep their input order
in the group. -/
theorem c7_witness :
    (("A", [exItem "1" "A" "2024-01-01", exItem "2" "A" "2024-01-01"]) :
        String × List Item).2.filter (fun it => updKey it == "2024-01-01") =
      (validItems [exItem "1" "A" "2024-01-01", exItem "2" "A" "2024-01-01"]).filter
        (fun it => titleKey it == "A" && (updKey it == "2024-01-01")) :=
  c7_sort_stable_on_ties [exItem "1" "A" "2024-01-01", exItem "2" "A" "2024-01-01"]
    ("A", [exItem "1" "A" "2024-01-01", exItem "2" "A" "2024-01-01"]) (by decide)
    "2024-01-01"

/-- C8: duplicate detection is a pure function of the item list, so two
runs over the same static input produce identical groups, group keys and
in-group orderings. -/
theorem c8_deterministic (items1 items2 : List Item) (h : items1 = items2) :
    find_duplicates items1 = find_duplicates items2 ∧
      (find_duplicates items1).map Prod.fst = (find_duplicates items2).map Prod.fst ∧
      (find_duplicates items1).map Prod.snd = (find_duplicates items2).map Prod.snd := by
  subst h
  exact ⟨rfl, rfl, rfl⟩

/-- C8, witness: determinism at a concrete input. -/
theorem c8_witness :
    find_duplicates [exItem "1" "A" "2024-01-01", exItem "2" "A" "2024-03-01"] =
      find_duplicates [exItem "1" "A" "2024-01-01", exItem "2" "A" "2024-03-01"] :=
  (c8_deterministic [exItem "1" "A" "2024-01-01", exItem "2" "A" "2024-03-01"]
    [exItem "1" "A" "2024-01-01", exItem "2" "A" "2024-03-01"] rfl).1

/-- C10: the groups partition a subset of the valid input items: every
grouped item is an unchanged input item listed under its own title, the
group keys are pairwise distinct, and the concatenation of all groups is a
permutation of (so consumes exactly once) the valid input items whose
title carries two or more valid items. -/
theorem c10_groups_partition_valid_items (items : List Item) :
    (∀ p ∈ find_duplicates items, ∀ it ∈ p.2, it ∈ items ∧ it.title = some p.1) ∧
      ((find_duplicates items).map Prod.fst).Nodup ∧
      (((find_duplicates items).map Prod.snd).flatten).Perm
        ((validItems items).filter
          (fun it => decide (1 < (groupFor (validItems items) (titleKey it)).length))) := by
  refine ⟨?_, ?_, find_duplicates_flatten_perm items⟩
  · intro p hp it hit
    obtain ⟨hmem, hvalid, htk⟩ := valid_of_mem_group hp hit
    refine ⟨hmem, ?_⟩
    have htruthy : truthy it.title = true := by
      simp only [validItem, Bool.and_eq_true] at hvalid
      exact hvalid.1.1
    rcases hts : it.title with - | s
    · rw [hts] at htruthy; simp [truthy] at htruthy
    · rw [titleKey, hts] at htk
      simp only [Option.getD_some] at htk
      rw [htk]
  · rw [find_duplicates_map_fst]
    exact (firstKeys_nodup _).filter _

/-- C10, witness: the partition facts at a concrete input. -/
theorem c10_witness :
    exItem "1" "A" "2024-01-01" ∈
        [exItem "1" "A" "2024-01-01", exItem "2" "A" "2024-03-01"] ∧
      (exItem "1" "A" "2024-01-01").title = some "A" := by
  have h := (c10_groups_partition_valid_items
    [exItem "1" "A" "2024-01-01", exItem "2" "A" "2024-03-01"]).1
    ("A", [exItem "2" "A" "2024-03-01", exItem "1" "A" "2024-01-01"]) (by decide)
    (exItem "1" "A" "2024-01-01") (by decide)
  exact h

/-- C5: with the dry-run flag off, the archival loop issues exactly one
delete/archive subprocess invocation per archive candidate
(`items_list[1:]` of every group) and nothing else; in particular every
issued delete command comes from an archive candidate, never from the loop
visiting the kept head. -/
theorem c5_execute_archives_only_candidates (vault_name account_user_id : String)
    (dups : List (String × List Item)) :
    archiveLoop false vault_name account_user_id dups =
      (dups.map (fun p => (archiveCandidates p.2).map (fun it =>
        Effect.runCmd (deleteCmd (it.id.getD "") vault_name account_user_id)))).flatten ∧
      ∀ c, Effect.runCmd c ∈ archiveLoop false vault_name account_user_id dups →
        ∃ p ∈ dups, ∃ it ∈ archiveCandidates p.2,
          c = deleteCmd (it.id.getD "") vault_name account_user_id := by
  have harch : archiveLoop false vault_name account_user_id dups =
      (dups.map (fun p => (archiveCandidates p.2).map (fun it =>
        Effect.runCmd (deleteCmd (it.id.getD "") vault_name account_user_id)))).flatten := by
    simp [archiveLoop]
  refine ⟨harch, ?_⟩
  intro c hc
  rw [harch] at hc
  rw [List.mem_flatten] at hc
  obtain ⟨l, hl, hcl⟩ := hc
  obtain ⟨p, hp, rfl⟩ := List.mem_map.mp hl
  obtain ⟨it, hit, heq⟩ := List.mem_map.mp hcl
  refine ⟨p, hp, it, hit, ?_⟩
  cases heq
  rfl

/-- C5, witness: the execute-mode trace of a concrete duplicate result. -/
theorem c5_witness :
    archiveLoop false "V" "U"
        [("A", [exItem "2" "A" "2024-03-01", exItem "1" "A" "2024-01-01"])] =
      [Effect.runCmd (deleteCmd "1" "V" "U")] := by
  have h := (c5_execute_archives_only_candidates "V" "U"
    [("A", [exItem "2" "A" "2024-03-01", exItem "1" "A" "2024-01-01"])]).1
  rw [h]
  rfl

/-- C6: with the dry-run flag set, no run of `main` that terminates ever
contains a delete/archive subprocess invocation in its trace, whatever the
environment produces; the archival loop instead prints exactly one
would-run line per archive candidate. -/
theorem c6_dry_run_never_archives :
    (∀ (vaultArg : Option String) (env : Env) (tr : List Effect),
        mainRun vaultArg true env = some tr → noRun tr) ∧
      ∀ (v a : String) (dups : List (String × List Item)),
        archiveLoop true v a dups =
          (dups.map (fun p => (archiveCandidates p.2).map (fun it =>
            Effect.print (dryRunMsg (deleteCmd (it.id.getD "") v a))))).flatten := by
  constructor
  · intro vaultArg env tr h
    cases vaultArg with
    | none =>
      simp only [mainRun] at h
      by_cases hacc : env.accounts.isEmpty = true
      · rw [if_pos hacc] at h
        obtain rfl := Option.some_injective _ h
        exact noRun_append noRun_introEffects (noRun_cons noRun_nil)
      · rw [if_neg hacc] at h
        rcases hsel : select_optionChoice (env.accounts.map accountOption) env.accountPick
          with - | chosen
        · rw [hsel] at h; cases h
        · rw [hsel] at h
          dsimp only at h
          by_cases hv : env.vaults.isEmpty = true
          · rw [if_pos hv] at h
            obtain rfl := Option.some_injective _ h
            exact noRun_append (noRun_append noRun_introEffects
              (noRun_select_optionEffects _ _)) (noRun_cons noRun_nil)
          · rw [if_neg hv] at h
            rcases hsel2 : select_optionChoice (env.vaults.map Vault.name) env.vaultPick
              with - | vault_name
            · rw [hsel2] at h; cases h
            · rw [hsel2] at h
              obtain rfl := Option.some_injective _ h
              exact noRun_append (noRun_append (noRun_append noRun_introEffects
                (noRun_select_optionEffects _ _)) (noRun_select_optionEffects _ _))
                (noRun_mainRest_true _ _ _ _)
    | some vault_name =>
      simp only [mainRun] at h
      by_cases hacc : env.accounts.isEmpty = true
      · rw [if_pos hacc] at h
        obtain rfl := Option.some_injective _ h
        exact noRun_append noRun_introEffects (noRun_cons noRun_nil)
      · rw [if_neg hacc] at h
        by_cases hone : (env.accounts.length == 1) = true
        · rw [if_pos hone] at h
          obtain rfl := Option.some_injective _ h
          exact noRun_append noRun_introEffects (noRun_mainRest_true _ _ _ _)
        · rw [if_neg hone] at h
          rcases hsel : select_optionChoice (env.accounts.map accountOption) env.accountPick
            with - | chosen
          · rw [hsel] at h; cases h
          · rw [hsel] at h
            dsimp only at h
            obtain rfl := Option.some_injective _ h
            exact noRun_append (noRun_append noRun_introEffects
              (noRun_select_optionEffects _ _)) (noRun_mainRest_true _ _ _ _)
  · intro v a dups
    simp [archiveLoop]

/-- C6, witness: a concrete dry run with one duplicate found and archiving
confirmed produces only prints. -/
theorem c6_witness :
    noRun (introEffects ++
      mainRest true "U" "V"
        [exItem "1" "A" "2024-01-01", exItem "2" "A" "2024-03-01"] "y") := by
  have h := (c6_dry_run_never_archives).1 (some "V")
    { accounts := [{ url := "https://x.example", email := "e@example.com", user_uuid := "U" }],
      vaults := [], items := [exItem "1" "A" "2024-01-01", exItem "2" "A" "2024-03-01"],
      accountPick := 1, vaultPick := 1, confirm := "y" }
    (introEffects ++
      mainRest true "U" "V"
        [exItem "1" "A" "2024-01-01", exItem "2" "A" "2024-03-01"] "y")
  exact h (by rfl)

/-- C9: each failure path of `main` — no accounts, no vaults, no
duplicates, or the operator declining the confirmation — terminates
normally (`some` trace, the script defines no non-zero exit), prints the
corresponding informational message, and executes no archive subprocess
invocation. -/
theorem c9_failure_paths_graceful :
    (∀ (vaultArg : Option String) (dry : Bool) (env : Env), env.accounts = [] →
        ∃ tr, mainRun vaultArg dry env = some tr ∧ noRun tr ∧
          Effect.print noAccountsMsg ∈ tr) ∧
      (∀ (dry : Bool) (env : Env) (chosen : String), env.accounts ≠ [] →
        select_optionChoice (env.accounts.map accountOption) env.accountPick = some chosen →
        env.vaults = [] →
        ∃ tr, mainRun none dry env = some tr ∧ noRun tr ∧
          Effect.print noVaultsMsg ∈ tr) ∧
      (∀ (v : String) (dry : Bool) (env : Env) (a : Account), env.accounts = [a] →
        find_duplicates env.items = [] →
        ∃ tr, mainRun (some v) dry env = some tr ∧ noRun tr ∧
          Effect.print noDuplicatesMsg ∈ tr) ∧
      (∀ (v : String) (dry : Bool) (env : Env) (a : Account), env.accounts = [a] →
        find_duplicates env.items ≠ [] → strLower env.confirm ≠ "y" →
        ∃ tr, mainRun (some v) dry env = some tr ∧ noRun tr ∧
          Effect.print abortMsg ∈ tr) := by
  refine ⟨?_, ?_, ?_, ?_⟩
  · intro vaultArg dry env h
    refine ⟨introEffects ++ [Effect.print noAccountsMsg], ?_,
      noRun_append noRun_introEffects (noRun_cons noRun_nil),
      List.mem_append_right _ (List.mem_cons_self _ _)⟩
    cases vaultArg <;> simp [mainRun, h]
  · intro dry env chosen hne hsel hv
    have haccF : ¬ env.accounts.isEmpty = true := fun hc => hne (List.isEmpty_iff.mp hc)
    refine ⟨introEffects ++
      select_optionEffects (env.accounts.map accountOption) "Select an account:" ++
      [Effect.print noVaultsMsg], ?_,
      noRun_append (noRun_append noRun_introEffects (noRun_select_optionEffects _ _))
        (noRun_cons noRun_nil),
      List.mem_append_right _ (List.mem_cons_self _ _)⟩
    simp only [mainRun]
    rw [if_neg haccF, hsel]
    dsimp only
    rw [if_pos (by rw [hv]; rfl)]
  · intro v dry env a ha hdup
    have hrest : mainRest dry a.user_uuid v env.items env.confirm =
        [Effect.print ("\n[bold]Selected Vault:[/bold] [yellow]" ++ v ++ "[/yellow]"),
         Effect.print noDuplicatesMsg] := by
      simp [mainRest, hdup]
    refine ⟨introEffects ++ mainRest dry a.user_uuid v env.items env.confirm, ?_, ?_, ?_⟩
    · simp [mainRun, ha]
    · rw [hrest]
      exact noRun_append noRun_introEffects (noRun_cons (noRun_cons noRun_nil))
    · rw [hrest]
      exact List.mem_append_right _ (List.mem_cons_of_mem _ (List.mem_cons_self _ _))
  · intro v dry env a ha hdup hconf
    have hdupF : ¬ (find_duplicates env.items).isEmpty = true :=
      fun hc => hdup (List.isEmpty_iff.mp hc)
    have hrest : mainRest dry a.user_uuid v env.items env.confirm =
        (Effect.print ("\n[bold]Selected Vault:[/bold] [yellow]" ++ v ++ "[/yellow]") ::
          summaryEffects (find_duplicates env.items)) ++
          [confirmPromptEffect, Effect.print abortMsg] := by
      rw [mainRest]
      rw [if_neg hdupF, if_pos hconf]
    refine ⟨introEffects ++ mainRest dry a.user_uuid v env.items env.confirm, ?_, ?_, ?_⟩
    · simp [mainRun, ha]
    · rw [hrest]
      exact noRun_append noRun_introEffects (noRun_append
        (noRun_cons (noRun_summaryEffects _)) (noRun_cons (noRun_cons noRun_nil)))
    · rw [hrest]
      exact List.mem_append_right _
        (List.mem_append_right _ (List.mem_cons_of_mem _ (List.mem_cons_self _ _)))

/-- C9, witness: the four failure paths at concrete environments. -/
theorem c9_witness :
    (∃ tr, mainRun none false (⟨[], [], [], 1, 1, "y"⟩ : Env) = some tr ∧ noRun tr ∧
        Effect.print noAccountsMsg ∈ tr) ∧
      (∃ tr, mainRun none false
          (⟨[⟨"https://x.example", "e@example.com", "U"⟩], [], [], 1, 1, "y"⟩ : Env) =
            some tr ∧ noRun tr ∧ Effect.print noVaultsMsg ∈ tr) ∧
      (∃ tr, mainRun (some "V") false
          (⟨[⟨"https://x.example", "e@example.com", "U"⟩], [⟨"V"⟩], [], 1, 1, "y"⟩ : Env) =
            some tr ∧ noRun tr ∧ Effect.print noDuplicatesMsg ∈ tr) ∧
      (∃ tr, mainRun (some "V") false
          (⟨[⟨"https://x.example", "e@example.com", "U"⟩], [⟨"V"⟩],
            [exItem "1" "A" "2024-01-01", exItem "2" "A" "2024-03-01"], 1, 1, "n"⟩ : Env) =
            some tr ∧ noRun tr ∧ Effect.print abortMsg ∈ tr) := by
  obtain ⟨h1, h2, h3, h4⟩ := c9_failure_paths_graceful
  refine ⟨h1 none false _ rfl, h2 false _ ("https://x.example - e@example.com - U") (by decide) (by rfl) rfl, h3 "V" false _ ⟨"https://x.example", "e@example.com", "U"⟩ rfl rfl, h4 "V" false _ ⟨"https://x.example", "e@example.com", "U"⟩ rfl (by decide) (by decide)⟩
